import Mathlib

/-!
Verification development for the rag-server repository.

The Python source under `app/` is shallowly embedded: pure functions become
Lean functions, the Pinecone vector index becomes an explicit state value,
asynchronous provider calls become attempt-indexed outcome functions
(`Nat → Except _ _`), and the LLM / embedding providers are abstracted as
outcome parameters.  Machine floats are modelled as rationals; Python string
operations are re-implemented over `List Char` so that everything evaluates
inside the kernel.
-/

/- ───────────────────────── Python string utilities ───────────────────────── -/

/-- Python whitespace characters (the ASCII portion of `str.strip` / `\s`). -/
def pySpaceChar (c : Char) : Bool :=
  c = ' ' || c = '\t' || c = '\n' || c = '\r' || c = '\x0b' || c = '\x0c'

/-- Characters of Python `s.strip()` applied to a char list. -/
def pyStripChars (l : List Char) : List Char :=
  ((l.dropWhile pySpaceChar).reverse.dropWhile pySpaceChar).reverse

/-- Python `s.strip()`. -/
def pyStrip (s : String) : String := ⟨pyStripChars s.data⟩

/-- Python `s.split("\n")` helper on char lists, with an accumulator for the
current (reversed) line. -/
def splitLinesAux : List Char → List Char → List String
  | [], acc => [⟨acc.reverse⟩]
  | c :: rest, acc =>
    if c = '\n' then (⟨acc.reverse⟩ : String) :: splitLinesAux rest []
    else splitLinesAux rest (c :: acc)

/-- Python `s.split("\n")`. -/
def splitLines (s : String) : List String := splitLinesAux s.data []

/-- Whether `needle` occurs as a contiguous substring of `hay`
(the Python test `needle in hay`). -/
def containsSub (needle : List Char) : List Char → Bool
  | [] => needle.isEmpty
  | c :: t => List.isPrefixOf needle (c :: t) || containsSub needle t

/-- Consecutive-pairs predicate on a list (used to state window-chain and
sortedness facts in an executable way). -/
def pairsHold {α : Type} (r : α → α → Bool) : List α → Bool
  | [] => true
  | [_] => true
  | a :: b :: t => r a b && pairsHold r (b :: t)

/- ───────────────────────── Python float helpers ───────────────────────── -/

/-- Python `round(x, 4)`, on the rational model of floats.  (Python rounds
half-to-even on floats; an exact half tie cannot be hit by any of the
concrete values appearing in this development, so the default `round` on
`ℚ` is an adequate model.) -/
def pyRound4 (x : ℚ) : ℚ := ((round (x * 10000) : ℤ) : ℚ) / 10000

/- ───────────────────────── Stable descending sort ────────────────────────
The Python call `sorted(xs, key=k, reverse=True)` is a stable descending sort: it
produces the unique reordering that is non-increasing on the key and keeps
the original relative order of equal keys.  A stable insertion sort computes
exactly that ordering. -/

/-- Insert `x` in front of the first element with a strictly smaller key. -/
def insortDesc {α : Type} (key : α → ℚ) (x : α) : List α → List α
  | [] => [x]
  | y :: t => if key y ≤ key x then x :: y :: t else y :: insortDesc key x t

/-- Stable descending sort by `key` (model of `sorted(..., key=key, reverse=True)`). -/
def sortByDesc {α : Type} (key : α → ℚ) : List α → List α
  | [] => []
  | x :: t => insortDesc key x (sortByDesc key t)

lemma insortDesc_perm {α : Type} (key : α → ℚ) (x : α) (l : List α) :
    (insortDesc key x l).Perm (x :: l) := by
  induction l with
  | nil => simp [insortDesc]
  | cons y t ih =>
    by_cases hc : key y ≤ key x
    · simp [insortDesc, hc]
    · simp only [insortDesc, if_neg hc]
      exact (ih.cons y).trans (List.Perm.swap x y t)

lemma sortByDesc_perm {α : Type} (key : α → ℚ) (l : List α) :
    (sortByDesc key l).Perm l := by
  induction l with
  | nil => simp [sortByDesc]
  | cons x t ih =>
    exact (insortDesc_perm key x (sortByDesc key t)).trans (ih.cons x)

lemma mem_sortByDesc {α : Type} (key : α → ℚ) (a : α) (l : List α)
    (h : a ∈ sortByDesc key l) : a ∈ l :=
  (sortByDesc_perm key l).mem_iff.mp h

/- ───────────────────────── app/utils/retry.py ─────────────────────────
`retry_async` wraps an async operation.  The operation is modelled as a
function from the attempt number (0-based) to the outcome of that attempt; a
Python exception is modelled by its class name, its optional `status_code`
and `status` attributes.  The caller-supplied `retryable_exceptions` tuple
(an `isinstance` check in the source) is modelled as a predicate on
exceptions, and sleeping/jitter — which affect only wall-clock timing —
are dropped.  The model returns the final outcome together with the number
of retries performed (the number of sleeps, i.e. of "retrying" log events). -/

/-- Model of a Python exception as classified by `retry_async`. -/
structure PyExc where
  name : String
  statusCode : Option Nat
  status : Option Nat
deriving DecidableEq

/-- Constant `OPENAI_RETRYABLE` from `app/utils/retry.py`. -/
def OPENAI_RETRYABLE : List String :=
  ["RateLimitError", "APIConnectionError", "APITimeoutError", "InternalServerError"]

/-- Constant `ANTHROPIC_RETRYABLE` from `app/utils/retry.py`. -/
def ANTHROPIC_RETRYABLE : List String :=
  ["RateLimitError", "APIConnectionError", "APITimeoutError", "InternalServerError",
   "OverloadedError"]

/-- Constant `PINECONE_RETRYABLE` from `app/utils/retry.py`. -/
def PINECONE_RETRYABLE : List String :=
  ["ServiceException", "PineconeException"]

/-- Configuration of one `retry_async` wrapper. -/
structure RetryCfg where
  maxRetries : Nat
  isInstanceRetryable : PyExc → Bool
  retryableStatusCodes : List Nat := [429, 500, 502, 503, 504]

/-- Model of `getattr(e, "status_code", None) or getattr(e, "status", None)`:
the Python `or` falls through on a falsy (absent or zero) `status_code`. -/
def effectiveStatus (e : PyExc) : Option Nat :=
  match e.statusCode with
  | some n => if n ≠ 0 then some n else e.status
  | none => e.status

/-- The retryability classification inside `retry_async`: an `isinstance`
match on the caller-supplied tuple, OR a known transient class name, OR a truthy
status code among the retryable ones. -/
def isRetryable (cfg : RetryCfg) (e : PyExc) : Bool :=
  cfg.isInstanceRetryable e ||
  (OPENAI_RETRYABLE ++ ANTHROPIC_RETRYABLE ++ PINECONE_RETRYABLE).contains e.name ||
  (match effectiveStatus e with
   | some s => s ≠ 0 && cfg.retryableStatusCodes.contains s
   | none => false)

/-- The attempt loop of `retry_async`: `attempt` is the current attempt
number and `remaining = max_retries - attempt` the number of attempts still
allowed after this one (`attempt == max_retries` in the source corresponds
to `remaining = 0`).  Returns the final outcome and the retry count. -/
def retryGo {α : Type} (cfg : RetryCfg) (op : Nat → Except PyExc α) :
    Nat → Nat → Except PyExc α × Nat
  | attempt, remaining =>
    match op attempt with
    | .ok v => (.ok v, 0)
    | .error e =>
      match remaining with
      | 0 => (.error e, 0)
      | r + 1 =>
        if isRetryable cfg e then
          let p := retryGo cfg op (attempt + 1) r
          (p.1, p.2 + 1)
        else (.error e, 0)

/-- The wrapper `retry_async(cfg)(op)` run on the wrapped operation. -/
def retry_async {α : Type} (cfg : RetryCfg) (op : Nat → Except PyExc α) :
    Except PyExc α × Nat :=
  retryGo cfg op 0 cfg.maxRetries

/-- Claim C3: if the wrapped operation fails retryably on attempts 0 and 1
and succeeds on attempt 2 (with a retry budget of at least 2), `retry_async`
returns the successful value having performed exactly two retries; and if
the operation fails with a non-retryable error on its first attempt,
`retry_async` propagates that very error with zero retries. -/
theorem retry_async_spec {α : Type} (cfg : RetryCfg) (op op' : Nat → Except PyExc α)
    (v : α) (e0 e1 e : PyExc)
    (hmax : 2 ≤ cfg.maxRetries)
    (h0 : op 0 = .error e0) (h1 : op 1 = .error e1) (h2 : op 2 = .ok v)
    (hr0 : isRetryable cfg e0 = true) (hr1 : isRetryable cfg e1 = true)
    (h0' : op' 0 = .error e) (hnr : isRetryable cfg e = false) :
    retry_async cfg op = (.ok v, 2) ∧ retry_async cfg op' = (.error e, 0) := by
  obtain ⟨k, hk⟩ : ∃ k, cfg.maxRetries = k + 2 :=
    ⟨cfg.maxRetries - 2, by omega⟩
  constructor
  · rw [retry_async, hk]
    rw [retryGo, h0]
    simp only [hr0, if_true]
    rw [retryGo, h1]
    simp only [hr1, if_true]
    rw [retryGo, h2]
  · rw [retry_async, hk]
    rw [retryGo, h0']
    simp only [hnr, if_false, Bool.false_eq_true]

/-- Witness for C3 at a concrete configuration and operations: two
rate-limit failures then success, versus an immediately-failing
non-retryable `ValueError`. -/
theorem retry_async_spec_witness :
    retry_async ⟨2, fun _ => false, [429, 500, 502, 503, 504]⟩
        (fun n => if n < 2 then .error ⟨"RateLimitError", none, none⟩ else .ok (42 : ℕ))
      = (.ok 42, 2) ∧
    retry_async ⟨2, fun _ => false, [429, 500, 502, 503, 504]⟩
        (fun _ => (.error ⟨"ValueError", none, none⟩ : Except PyExc ℕ))
      = (.error ⟨"ValueError", none, none⟩, 0) :=
  retry_async_spec
    ⟨2, fun _ => false, [429, 500, 502, 503, 504]⟩
    (fun n => if n < 2 then .error ⟨"RateLimitError", none, none⟩ else .ok (42 : ℕ))
    (fun _ => .error ⟨"ValueError", none, none⟩)
    42 ⟨"RateLimitError", none, none⟩ ⟨"RateLimitError", none, none⟩
    ⟨"ValueError", none, none⟩
    (by decide) rfl rfl rfl
    (by decide) (by decide) rfl (by decide)

/- ──────────────── app/services/document_processor.py : _split_text ────────────────
The tiktoken tokenizer is external to the repository, so a text is modelled
by its token sequence `toks : List Nat` together with an abstract
detokenizer `dec : List Nat → String` (`self.tokenizer.decode`).  The
`while start < len(tokens)` loop of `_split_text` is embedded with explicit
fuel; each iteration emits the window `tokens[start:end]` with
`end = min(start + chunk_size, len(tokens))`, breaks once `end` reaches the
end, and otherwise advances `start` by `chunk_size - chunk_overlap`.  Fuel
`n + 1` is sufficient whenever `chunk_overlap < chunk_size` because `start`
then strictly increases and stays below `n` (matching the source, which
would not terminate at all if the overlap reached the chunk size). -/

/-- A chunk as produced by `DocumentProcessor` (`chunk_id`, a fresh UUID
side effect, is omitted). -/
structure SChunk where
  chunkIndex : Nat
  text : String
  pageNumber : Option Nat
  sectionTitle : Option String
  tokenCount : Nat
deriving DecidableEq

/-- The window loop of `_split_text`, producing `(start, end)` token ranges. -/
def splitGo (cs ov n : Nat) : Nat → Nat → List (Nat × Nat)
  | _, 0 => []
  | start, fuel + 1 =>
    if start < n then
      if n ≤ min (start + cs) n then [(start, min (start + cs) n)]
      else (start, min (start + cs) n) :: splitGo cs ov n (start + (cs - ov)) fuel
    else []

/-- All `(start, end)` windows `_split_text` walks over a token sequence of
length `n`. -/
def splitWindows (cs ov n : Nat) : List (Nat × Nat) := splitGo cs ov n 0 (n + 1)

/-- Build the chunk records for a list of windows; `k` is the running
`chunk_index` counter (`start_index + len(chunks)` in the source). -/
def chunksOfWindows (dec : List Nat → String) (toks : List Nat)
    (page : Option Nat) (title : Option String) : Nat → List (Nat × Nat) → List SChunk
  | _, [] => []
  | k, (s, e) :: ws =>
    ⟨k, pyStrip (dec ((toks.drop s).take (e - s))), page, title,
      ((toks.drop s).take (e - s)).length⟩ ::
      chunksOfWindows dec toks page title (k + 1) ws

/-- Model of `DocumentProcessor._split_text`. -/
def split_text (cs ov : Nat) (dec : List Nat → String) (toks : List Nat)
    (page : Option Nat) (title : Option String) (startIndex : Nat) : List SChunk :=
  chunksOfWindows dec toks page title startIndex (splitWindows cs ov toks.length)

/-- Specification of the window sequence starting at `s`: either the window
reaches the end of the tokens and the loop stops, or a full window is
emitted and the walk continues `cs - ov` further. -/
inductive Wins (cs ov n : Nat) : Nat → List (Nat × Nat) → Prop
  | last {s} : s < n → n ≤ s + cs → Wins cs ov n s [(s, n)]
  | step {s ws} : s + cs < n → Wins cs ov n (s + (cs - ov)) ws →
      Wins cs ov n s ((s, s + cs) :: ws)

lemma splitGo_wins (cs ov n : Nat) (hov : ov < cs) :
    ∀ fuel start, start < n → n - start ≤ fuel →
      Wins cs ov n start (splitGo cs ov n start fuel) := by
  intro fuel
  induction fuel with
  | zero => intro start h1 h2; omega
  | succ f ih =>
    intro start h1 h2
    rw [splitGo, if_pos h1]
    by_cases he : n ≤ min (start + cs) n
    · rw [if_pos he]
      have hmin : min (start + cs) n = n := by omega
      rw [hmin]
      exact Wins.last h1 (by omega)
    · rw [if_neg he]
      have hlt : start + cs < n := by omega
      have hmin : min (start + cs) n = start + cs := by omega
      rw [hmin]
      exact Wins.step hlt (ih (start + (cs - ov)) (by omega) (by omega))

lemma Wins.head_eq {cs ov n s : Nat} {ws : List (Nat × Nat)} (h : Wins cs ov n s ws) :
    ∃ e tail, ws = (s, e) :: tail := by
  cases h with
  | last h1 h2 => exact ⟨n, [], rfl⟩
  | step hlt hw => exact ⟨s + cs, _, rfl⟩

lemma Wins.last_end {cs ov n s : Nat} {ws : List (Nat × Nat)} (h : Wins cs ov n s ws) :
    (ws.getLast?).map Prod.snd = some n := by
  induction h with
  | last h1 h2 => rfl
  | step hlt hw ih =>
    obtain ⟨e, tail, hws⟩ := hw.head_eq
    subst hws
    simpa [List.getLast?] using ih

lemma Wins.bounds {cs ov n s : Nat} {ws : List (Nat × Nat)} (h : Wins cs ov n s ws) :
    ∀ w ∈ ws, w.1 < n ∧ w.2 ≤ n ∧ w.2 - w.1 ≤ cs := by
  induction h with
  | last h1 h2 =>
    intro w hw
    simp only [List.mem_singleton] at hw
    subst hw
    exact ⟨h1, le_rfl, by omega⟩
  | step hlt hw ih =>
    intro w hmem
    rcases List.mem_cons.mp hmem with hw' | hw'
    · subst hw'
      exact ⟨by omega, le_of_lt hlt, by omega⟩
    · exact ih w hw'

lemma Wins.chain {cs ov n s : Nat} {ws : List (Nat × Nat)} (h : Wins cs ov n s ws)
    (hov : ov ≤ cs) :
    pairsHold (fun a b => b.1 == a.1 + (cs - ov) && a.2 == a.1 + cs && a.2 - b.1 == ov) ws
      = true := by
  induction h with
  | last h1 h2 => rfl
  | step hlt hw ih =>
    obtain ⟨e, tail, hws⟩ := hw.head_eq
    subst hws
    rw [pairsHold, ih]
    simp only [Bool.and_true, Bool.and_eq_true, beq_iff_eq, Prod.fst, Prod.snd,
      true_and, and_true, eq_self_iff_true]
    omega

lemma Wins.cover {cs ov n s : Nat} {ws : List (Nat × Nat)} (h : Wins cs ov n s ws) :
    ∀ t, s ≤ t → t < n → ∃ w ∈ ws, w.1 ≤ t ∧ t < w.2 := by
  induction h with
  | @last s' h1 h2 =>
    intro t ht1 ht2
    exact ⟨(s', n), List.mem_singleton.mpr rfl, ht1, ht2⟩
  | @step s' ws' hlt hw ih =>
    intro t ht1 ht2
    by_cases hc : t < s' + cs
    · exact ⟨(s', s' + cs), List.mem_cons_self _ _, ht1, hc⟩
    · obtain ⟨w, hmem, hw1, hw2⟩ := ih t (by omega) ht2
      exact ⟨w, List.mem_cons_of_mem _ hmem, hw1, hw2⟩

lemma chunksOfWindows_length (dec : List Nat → String) (toks : List Nat)
    (page : Option Nat) (title : Option String) :
    ∀ ws k, (chunksOfWindows dec toks page title k ws).length = ws.length := by
  intro ws
  induction ws with
  | nil => intro k; rfl
  | cons w tail ih =>
    intro k
    cases w with
    | mk s e => simp [chunksOfWindows, ih]

lemma chunksOfWindows_chunkIndex (dec : List Nat → String) (toks : List Nat)
    (page : Option Nat) (title : Option String) :
    ∀ ws k, (chunksOfWindows dec toks page title k ws).map SChunk.chunkIndex
      = List.range' k ws.length := by
  intro ws
  induction ws with
  | nil => intro k; rfl
  | cons w tail ih =>
    intro k
    cases w with
    | mk s e => simp [chunksOfWindows, ih, List.range'_succ]

lemma mem_chunksOfWindows (dec : List Nat → String) (toks : List Nat)
    (page : Option Nat) (title : Option String) :
    ∀ ws k c, c ∈ chunksOfWindows dec toks page title k ws →
      c.pageNumber = page ∧ c.sectionTitle = title ∧
      ∃ w ∈ ws, c.tokenCount = ((toks.drop w.1).take (w.2 - w.1)).length := by
  intro ws
  induction ws with
  | nil => intro k c hc; simp [chunksOfWindows] at hc
  | cons w tail ih =>
    intro k c hc
    cases w with
    | mk s e =>
      rcases List.mem_cons.mp hc with hc' | hc'
      · subst hc'
        exact ⟨rfl, rfl, (s, e), List.mem_cons_self _ _, rfl⟩
      · obtain ⟨h1, h2, w', hmem, h3⟩ := ih (k + 1) c hc'
        exact ⟨h1, h2, w', List.mem_cons_of_mem _ hmem, h3⟩

lemma Wins.two_le {cs ov n s : Nat} {ws : List (Nat × Nat)} (h : Wins cs ov n s ws)
    (hlt : s + cs < n) : 2 ≤ ws.length := by
  cases h with
  | last h1 h2 => omega
  | step hlt' hw =>
    obtain ⟨e, tail, hws⟩ := hw.head_eq
    subst hws
    simp only [List.length_cons]
    omega

/-- Claim C4: on a token sequence longer than `chunk_size` (with
`chunk_overlap < chunk_size`), `_split_text` emits at least two chunks whose
`chunk_index` values are contiguous and strictly increasing from
`start_index`, each with `token_count ≤ chunk_size` and carrying the given
page and section metadata; the walked windows start at token 0, consecutive
windows lie `chunk_size - chunk_overlap` apart (each non-final window being
full, so adjacent token ranges overlap in exactly `chunk_overlap` tokens),
every token position is covered by some window, and the final (possibly
short) window ends exactly at the end of the token sequence. -/
theorem split_text_oversized (cs ov startIndex : Nat) (dec : List Nat → String)
    (toks : List Nat) (page : Option Nat) (title : Option String)
    (hov : ov < cs) (hn : cs < toks.length) :
    (split_text cs ov dec toks page title startIndex).map SChunk.chunkIndex
        = List.range' startIndex (split_text cs ov dec toks page title startIndex).length ∧
    2 ≤ (split_text cs ov dec toks page title startIndex).length ∧
    (∀ c ∈ split_text cs ov dec toks page title startIndex,
      c.tokenCount ≤ cs ∧ c.pageNumber = page ∧ c.sectionTitle = title) ∧
    ((splitWindows cs ov toks.length).head?).map Prod.fst = some 0 ∧
    ((splitWindows cs ov toks.length).getLast?).map Prod.snd = some toks.length ∧
    pairsHold (fun a b => b.1 == a.1 + (cs - ov) && a.2 == a.1 + cs && a.2 - b.1 == ov)
      (splitWindows cs ov toks.length) = true ∧
    (∀ t < toks.length, ∃ w ∈ splitWindows cs ov toks.length, w.1 ≤ t ∧ t < w.2) := by
  have hwins : Wins cs ov toks.length 0 (splitWindows cs ov toks.length) :=
    splitGo_wins cs ov toks.length hov (toks.length + 1) 0 (by omega) (by omega)
  have hlen : (split_text cs ov dec toks page title startIndex).length
      = (splitWindows cs ov toks.length).length := by
    rw [split_text, chunksOfWindows_length]
  have hws2 : 2 ≤ (splitWindows cs ov toks.length).length :=
    hwins.two_le (by omega)
  refine ⟨?_, ?_, ?_, ?_, ?_, ?_, ?_⟩
  · rw [hlen, split_text, chunksOfWindows_chunkIndex]
  · omega
  · intro c hc
    obtain ⟨h1, h2, w, hmem, h3⟩ :=
      mem_chunksOfWindows dec toks page title _ startIndex c hc
    obtain ⟨hb1, hb2, hb3⟩ := hwins.bounds w hmem
    refine ⟨?_, h1, h2⟩
    rw [h3]
    simp only [List.length_take, List.length_drop]
    omega
  · obtain ⟨e, tail, hws⟩ := hwins.head_eq
    simp [hws]
  · exact hwins.last_end
  · exact hwins.chain (le_of_lt hov)
  · intro t ht
    exact hwins.cover t (Nat.zero_le t) ht

/-- Witness for C4 on a 5-token sequence with `chunk_size = 3`,
`chunk_overlap = 1`, `start_index = 7`. -/
theorem split_text_oversized_witness :
    (split_text 3 1 (fun _ => "") [0, 1, 2, 3, 4] (some 2) (some "T") 7).map SChunk.chunkIndex
        = List.range' 7 (split_text 3 1 (fun _ => "") [0, 1, 2, 3, 4] (some 2) (some "T") 7).length ∧
    2 ≤ (split_text 3 1 (fun _ => "") [0, 1, 2, 3, 4] (some 2) (some "T") 7).length ∧
    (∀ c ∈ split_text 3 1 (fun _ => "") [0, 1, 2, 3, 4] (some 2) (some "T") 7,
      c.tokenCount ≤ 3 ∧ c.pageNumber = some 2 ∧ c.sectionTitle = some "T") ∧
    ((splitWindows 3 1 ([0, 1, 2, 3, 4] : List Nat).length).head?).map Prod.fst = some 0 ∧
    ((splitWindows 3 1 ([0, 1, 2, 3, 4] : List Nat).length).getLast?).map Prod.snd
        = some ([0, 1, 2, 3, 4] : List Nat).length ∧
    pairsHold (fun a b => b.1 == a.1 + (3 - 1) && a.2 == a.1 + 3 && a.2 - b.1 == 1)
      (splitWindows 3 1 ([0, 1, 2, 3, 4] : List Nat).length) = true ∧
    (∀ t < ([0, 1, 2, 3, 4] : List Nat).length,
      ∃ w ∈ splitWindows 3 1 ([0, 1, 2, 3, 4] : List Nat).length, w.1 ≤ t ∧ t < w.2) :=
  split_text_oversized 3 1 7 (fun _ => "") [0, 1, 2, 3, 4] (some 2) (some "T")
    (by decide) (by decide)

lemma splitGo_small (cs ov m : Nat) (hle : m + 1 ≤ cs) (fuel : Nat) :
    splitGo cs ov (m + 1) 0 (fuel + 1) = [(0, m + 1)] := by
  have hmin : cs ⊓ (m + 1) = m + 1 := by omega
  simp [splitGo]
  rw [if_pos hle, hmin]

/-- Claim C5 (amended to require at least one token, since `_split_text`
returns no chunks at all on an empty token sequence): for a nonempty text
of at most `chunk_size` tokens, `_split_text` returns exactly one chunk —
the whole detokenized text, stripped — carrying the given page and section
metadata, with `chunk_index` equal to `start_index` and `token_count` equal
to the full token count. -/
theorem split_text_small (cs ov startIndex : Nat) (dec : List Nat → String)
    (toks : List Nat) (t : String) (page : Option Nat) (title : Option String)
    (hne : toks ≠ []) (hle : toks.length ≤ cs) (hrt : dec toks = t) :
    split_text cs ov dec toks page title startIndex
      = [⟨startIndex, pyStrip t, page, title, toks.length⟩] := by
  obtain ⟨m, hm⟩ : ∃ m, toks.length = m + 1 := by
    cases toks with
    | nil => exact absurd rfl hne
    | cons a tail => exact ⟨tail.length, rfl⟩
  have hsplit : splitWindows cs ov toks.length = [(0, toks.length)] := by
    rw [splitWindows, hm]
    exact splitGo_small cs ov m (by omega) (m + 1)
  rw [split_text, hsplit]
  have htake : toks.take toks.length = toks := by simp
  rw [hm] at htake
  simp [chunksOfWindows, hrt, hm, htake]

/-- Witness for C5 (amended) on a 2-token text with `chunk_size = 3`. -/
theorem split_text_small_witness :
    split_text 3 1 (fun _ => "ab") [5, 6] (some 1) (some "S") 4
      = [⟨4, pyStrip "ab", some 1, some "S", ([5, 6] : List Nat).length⟩] :=
  split_text_small 3 1 4 (fun _ => "ab") [5, 6] "ab" (some 1) (some "S")
    (by decide) (by decide) rfl

/-- Counterexample to C5 as literally stated: the empty text has token
count `0 ≤ chunk_size`, yet `_split_text` returns zero chunks (the window
loop never runs), not exactly one chunk. -/
theorem split_text_small_cex :
    ([] : List Nat).length ≤ 512 ∧
    (split_text 512 128 (fun _ => "") [] none none 0).length = 0 := by
  exact ⟨by decide, by decide⟩

/- ──────────── app/services/document_processor.py : _detect_sections ────────────
The five `header_patterns` regexes are compiled to executable matchers over
the characters of the (already stripped) line.  `re.match` anchors at the
start of the string; classes `[A-Z]`, `\d`, `\s` are modelled by their ASCII
ranges (the documents involved are ASCII insurance text). -/

/-- The regex class `[A-Z]`. -/
def isUpperAZ (c : Char) : Bool := 'A' ≤ c && c ≤ 'Z'

/-- The regex class `\d` (ASCII). -/
def isDigit09 (c : Char) : Bool := '0' ≤ c && c ≤ '9'

/-- The regex class `[IVXLC]`. -/
def isRomanChar (c : Char) : Bool := c = 'I' || c = 'V' || c = 'X' || c = 'L' || c = 'C'

/-- Pattern `^[A-Z][A-Z\s\-]{5,}$` — an uppercase letter followed by at least five
characters drawn from uppercase letters, whitespace and hyphens, to the end
of the line. -/
def headerPat1 : List Char → Bool
  | [] => false
  | c :: rest =>
    isUpperAZ c && decide (5 ≤ rest.length) &&
      rest.all (fun d => isUpperAZ d || pySpaceChar d || d = '-')

/-- Fragment `\s+\d+` anchored at the front of `l`: a nonempty whitespace run whose
first following character is a digit. -/
def wsThenDigit (l : List Char) : Bool :=
  !(l.takeWhile pySpaceChar).isEmpty &&
    (match l.dropWhile pySpaceChar with
     | c :: _ => isDigit09 c
     | [] => false)

/-- Pattern `^(?:SECTION|ARTICLE|PART)\s+\d+`. -/
def headerPat2 (l : List Char) : Bool :=
  (List.isPrefixOf "SECTION".data l && wsThenDigit (l.drop 7)) ||
  (List.isPrefixOf "ARTICLE".data l && wsThenDigit (l.drop 7)) ||
  (List.isPrefixOf "PART".data l && wsThenDigit (l.drop 4))

/-- Pattern `^\d+\.\s+[A-Z]` — digits, a literal dot, whitespace, then an uppercase
letter. -/
def headerPat3 (l : List Char) : Bool :=
  !(l.takeWhile isDigit09).isEmpty &&
    (match l.dropWhile isDigit09 with
     | c0 :: t =>
       c0 = '.' && !(t.takeWhile pySpaceChar).isEmpty &&
         (match t.dropWhile pySpaceChar with
          | c :: _ => isUpperAZ c
          | [] => false)
     | [] => false)

/-- Pattern `^[IVXLC]+\.\s+` — Roman-numeral characters, a literal dot, then at
least one whitespace character. -/
def headerPat4 (l : List Char) : Bool :=
  !(l.takeWhile isRomanChar).isEmpty &&
    (match l.dropWhile isRomanChar with
     | c0 :: t =>
       c0 = '.' && (match t with | w :: _ => pySpaceChar w | [] => false)
     | [] => false)

/-- The insurance-specific heading keywords of the fifth pattern. -/
def insuranceKeywords : List String :=
  ["COVERAGE", "EXCLUSION", "CONDITION", "DEFINITION", "ENDORSEMENT"]

/-- Pattern `^(?:COVERAGE|EXCLUSION|CONDITION|DEFINITION|ENDORSEMENT)`. -/
def headerPat5 (l : List Char) : Bool :=
  insuranceKeywords.any (fun kw => List.isPrefixOf kw.data l)

/-- Model of `any(re.match(p, line_stripped) for p in header_patterns)`. -/
def isHeaderLine (s : String) : Bool :=
  headerPat1 s.data || headerPat2 s.data || headerPat3 s.data ||
    headerPat4 s.data || headerPat5 s.data

/-- The header branch guard of `_detect_sections`:
`if is_header and len(line_stripped) < 100`. -/
def takesHeaderBranch (ls : String) : Bool :=
  isHeaderLine ls && decide (ls.length < 100)

/-- A detected section (`{"title", "text", "page_number"}`). -/
structure DocSection where
  title : String
  text : String
  pageNumber : Nat
deriving DecidableEq

/-- One iteration of the line loop in `_detect_sections`, carrying the
already-closed sections and the current section. -/
def processLine (pageNum : Nat) (acc : List DocSection × DocSection) (line : String) :
    List DocSection × DocSection :=
  let ls := pyStrip line
  if ls = "" then acc
  else if takesHeaderBranch ls then
    (if pyStrip acc.2.text = "" then acc.1 else acc.1 ++ [acc.2],
     ⟨ls, "", pageNum⟩)
  else (acc.1, ⟨acc.2.title, acc.2.text ++ line ++ "\n", acc.2.pageNumber⟩)

/-- Model of `DocumentProcessor._detect_sections` over `(page_number, text)` pages. -/
def detect_sections (pages : List (Nat × String)) : List DocSection :=
  let fin := pages.foldl
    (fun acc p => (splitLines p.2).foldl (processLine p.1) acc)
    ([], ⟨"Document Start", "", 1⟩)
  if pyStrip fin.2.text = "" then fin.1 else fin.1 ++ [fin.2]

/- Spec-side formulations of the five header patterns, written from the
wording of the specification and compared against the compiled matchers. -/

/-- Spec wording for the all-caps pattern, parameterised by the minimum
total line length it demands (the claim says 5; the regex demands 6). -/
def ClaimAllCaps (minLen : Nat) (l : List Char) : Prop :=
  ∃ c cs, l = c :: cs ∧ isUpperAZ c = true ∧ minLen ≤ (c :: cs).length ∧
    ∀ d ∈ cs, isUpperAZ d = true ∨ pySpaceChar d = true ∨ d = '-'

/-- Spec wording: an explicit SECTION/ARTICLE/PART marker followed by a
number. -/
def SpecSectionMarker (l : List Char) : Prop :=
  ∃ kw ∈ (["SECTION", "ARTICLE", "PART"] : List String), ∃ ws d rest,
    l = kw.data ++ ws ++ d :: rest ∧ ws ≠ [] ∧ (∀ c ∈ ws, pySpaceChar c = true) ∧
    isDigit09 d = true

/-- Spec wording: a `<number>. <Capital>` line. -/
def SpecNumberDot (l : List Char) : Prop :=
  ∃ ds ws c rest, l = ds ++ '.' :: (ws ++ c :: rest) ∧ ds ≠ [] ∧
    (∀ d ∈ ds, isDigit09 d = true) ∧ ws ≠ [] ∧ (∀ d ∈ ws, pySpaceChar d = true) ∧
    isUpperAZ c = true

/-- Spec wording: a Roman-numeral marker (`IV. …`). -/
def SpecRoman (l : List Char) : Prop :=
  ∃ rs w rest, l = rs ++ '.' :: w :: rest ∧ rs ≠ [] ∧
    (∀ d ∈ rs, isRomanChar d = true) ∧ pySpaceChar w = true

/-- Spec wording: a known insurance heading keyword starts the line. -/
def SpecKeyword (l : List Char) : Prop :=
  ∃ kw ∈ insuranceKeywords, kw.data <+: l

/-- The disjunction of the five spec-side patterns. -/
def SpecHeader (minCaps : Nat) (l : List Char) : Prop :=
  ClaimAllCaps minCaps l ∨ SpecSectionMarker l ∨ SpecNumberDot l ∨
    SpecRoman l ∨ SpecKeyword l

lemma pySpaceChar_cases {c : Char} (h : pySpaceChar c = true) :
    c = ' ' ∨ c = '\t' ∨ c = '\n' ∨ c = '\r' ∨ c = '\x0b' ∨ c = '\x0c' := by
  unfold pySpaceChar at h
  simp only [Bool.or_eq_true, decide_eq_true_eq] at h
  tauto

lemma digit_not_space {c : Char} (h : isDigit09 c = true) : pySpaceChar c = false := by
  cases hb : pySpaceChar c
  · rfl
  · rcases pySpaceChar_cases hb with h3 | h3 | h3 | h3 | h3 | h3 <;> subst h3 <;>
      exact absurd h (by decide)

lemma upper_not_space {c : Char} (h : isUpperAZ c = true) : pySpaceChar c = false := by
  cases hb : pySpaceChar c
  · rfl
  · rcases pySpaceChar_cases hb with h3 | h3 | h3 | h3 | h3 | h3 <;> subst h3 <;>
      exact absurd h (by decide)

lemma takeWhile_append_run {p : Char → Bool} :
    ∀ (ws : List Char) (d : Char) (rest : List Char),
      (∀ c ∈ ws, p c = true) → p d = false →
      (ws ++ d :: rest).takeWhile p = ws ∧ (ws ++ d :: rest).dropWhile p = d :: rest := by
  intro ws
  induction ws with
  | nil =>
    intro d rest _ hd
    simp [List.takeWhile_cons, List.dropWhile_cons, hd]
  | cons a tl ih =>
    intro d rest hall hd
    have ha : p a = true := hall a (List.mem_cons_self _ _)
    have hrec := ih d rest (fun c hc => hall c (List.mem_cons_of_mem _ hc)) hd
    simp [List.takeWhile_cons, List.dropWhile_cons, ha, hrec.1, hrec.2]

lemma wsThenDigit_iff (l : List Char) :
    wsThenDigit l = true ↔
      ∃ ws d rest, l = ws ++ d :: rest ∧ ws ≠ [] ∧
        (∀ c ∈ ws, pySpaceChar c = true) ∧ isDigit09 d = true := by
  constructor
  · intro h
    rw [wsThenDigit] at h
    rw [Bool.and_eq_true] at h
    obtain ⟨h1, h2⟩ := h
    cases hdw : l.dropWhile pySpaceChar with
    | nil => rw [hdw] at h2; simp at h2
    | cons d rest =>
      rw [hdw] at h2
      have hl : l = l.takeWhile pySpaceChar ++ (d :: rest) := by
        have := (List.takeWhile_append_dropWhile pySpaceChar l).symm
        rw [hdw] at this
        exact this
      refine ⟨l.takeWhile pySpaceChar, d, rest, hl, ?_, ?_, h2⟩
      · intro hcon
        rw [hcon] at h1
        simp at h1
      · exact fun c hc => List.mem_takeWhile_imp hc
  · rintro ⟨ws, d, rest, rfl, hne, hall, hd⟩
    obtain ⟨ht, hdr⟩ := takeWhile_append_run ws d rest hall (digit_not_space hd)
    rw [wsThenDigit, ht, hdr]
    simp [hne, hd]

lemma headerPat1_iff (l : List Char) : headerPat1 l = true ↔ ClaimAllCaps 6 l := by
  cases l with
  | nil =>
    simp only [headerPat1, ClaimAllCaps]
    constructor
    · intro h; cases h
    · rintro ⟨c, cs, h, -⟩; cases h
  | cons c cs =>
    simp only [headerPat1, Bool.and_eq_true, decide_eq_true_eq, List.all_eq_true,
      Bool.or_eq_true, ClaimAllCaps]
    constructor
    · rintro ⟨⟨hc, hlen⟩, hall⟩
      refine ⟨c, cs, rfl, hc, by simp only [List.length_cons]; omega, ?_⟩
      intro d hd
      have h := hall d hd
      tauto
    · rintro ⟨c', cs', heq, hc, hlen, hall⟩
      injection heq with h1 h2
      subst h1; subst h2
      simp only [List.length_cons] at hlen
      refine ⟨⟨hc, by omega⟩, ?_⟩
      intro d hd
      have h := hall d hd
      tauto

lemma prefix_drop {kw l : List Char} (h : List.isPrefixOf kw l = true) :
    l = kw ++ l.drop kw.length := by
  obtain ⟨suf, rfl⟩ := List.isPrefixOf_iff_prefix.mp h
  rw [List.drop_left]

lemma prefix_drop_n {kw l : List Char} {n : Nat} (h : List.isPrefixOf kw l = true)
    (hn : kw.length = n) : l = kw ++ l.drop n := by
  subst hn
  exact prefix_drop h

lemma drop_len_append (n : Nat) (l₁ l₂ : List Char) (h : l₁.length = n) :
    List.drop n (l₁ ++ l₂) = l₂ := by
  subst h
  exact List.drop_left l₁ l₂

lemma headerPat2_iff (l : List Char) : headerPat2 l = true ↔ SpecSectionMarker l := by
  constructor
  · intro h
    rw [headerPat2] at h
    simp only [Bool.or_eq_true, Bool.and_eq_true] at h
    rcases h with (⟨hp, hwd⟩ | ⟨hp, hwd⟩) | ⟨hp, hwd⟩
    · obtain ⟨ws, d, rest, hsp, hne, hall, hd⟩ := (wsThenDigit_iff _).mp hwd
      refine ⟨"SECTION", by simp, ws, d, rest, ?_, hne, hall, hd⟩
      have hl : l = "SECTION".data ++ List.drop 7 l := prefix_drop_n hp rfl
      rw [hsp] at hl
      simpa using hl
    · obtain ⟨ws, d, rest, hsp, hne, hall, hd⟩ := (wsThenDigit_iff _).mp hwd
      refine ⟨"ARTICLE", by simp, ws, d, rest, ?_, hne, hall, hd⟩
      have hl : l = "ARTICLE".data ++ List.drop 7 l := prefix_drop_n hp rfl
      rw [hsp] at hl
      simpa using hl
    · obtain ⟨ws, d, rest, hsp, hne, hall, hd⟩ := (wsThenDigit_iff _).mp hwd
      refine ⟨"PART", by simp, ws, d, rest, ?_, hne, hall, hd⟩
      have hl : l = "PART".data ++ List.drop 4 l := prefix_drop_n hp rfl
      rw [hsp] at hl
      simpa using hl
  · rintro ⟨kw, hkw, ws, d, rest, rfl, hne, hall, hd⟩
    rw [headerPat2]
    simp only [Bool.or_eq_true, Bool.and_eq_true]
    have hmem : kw = "SECTION" ∨ kw = "ARTICLE" ∨ kw = "PART" := by simpa using hkw
    have hwd : wsThenDigit (ws ++ d :: rest) = true :=
      (wsThenDigit_iff _).mpr ⟨ws, d, rest, rfl, hne, hall, hd⟩
    rcases hmem with rfl | rfl | rfl
    · refine Or.inl (Or.inl ⟨ List.isPrefixOf_iff_prefix.mpr (List.prefix_append _ _), ?_⟩)
      have hdrop : List.drop 7 ("SECTION".data ++ ws ++ d :: rest) = ws ++ d :: rest :=
        drop_len_append 7 ("SECTION".data) (ws ++ d :: rest) rfl
      rw [hdrop]
      exact hwd
    · refine Or.inl (Or.inr ⟨ List.isPrefixOf_iff_prefix.mpr (List.prefix_append _ _), ?_⟩)
      have hdrop : List.drop 7 ("ARTICLE".data ++ ws ++ d :: rest) = ws ++ d :: rest :=
        drop_len_append 7 ("ARTICLE".data) (ws ++ d :: rest) rfl
      rw [hdrop]
      exact hwd
    · refine Or.inr ⟨ List.isPrefixOf_iff_prefix.mpr (List.prefix_append _ _), ?_⟩
      have hdrop : List.drop 4 ("PART".data ++ ws ++ d :: rest) = ws ++ d :: rest :=
        drop_len_append 4 ("PART".data) (ws ++ d :: rest) rfl
      rw [hdrop]
      exact hwd

lemma headerPat3_iff (l : List Char) : headerPat3 l = true ↔ SpecNumberDot l := by
  constructor
  · intro h
    rw [headerPat3, Bool.and_eq_true] at h
    obtain ⟨h1, h2⟩ := h
    cases hdw : l.dropWhile isDigit09 with
    | nil => rw [hdw] at h2; simp at h2
    | cons c0 t =>
      rw [hdw] at h2
      simp only [Bool.and_eq_true, decide_eq_true_eq] at h2
      obtain ⟨⟨hc0, h3⟩, h4⟩ := h2
      subst hc0
      cases hdw2 : t.dropWhile pySpaceChar with
      | nil => rw [hdw2] at h4; simp at h4
      | cons c rest =>
        rw [hdw2] at h4
        have hl : l = l.takeWhile isDigit09 ++ ('.' :: t) := by
          have := (List.takeWhile_append_dropWhile isDigit09 l).symm
          rw [hdw] at this
          exact this
        have ht : t = t.takeWhile pySpaceChar ++ (c :: rest) := by
          have := (List.takeWhile_append_dropWhile pySpaceChar t).symm
          rw [hdw2] at this
          exact this
        have hdec : l = l.takeWhile isDigit09 ++ '.' :: (t.takeWhile pySpaceChar ++ c :: rest) := by
          conv_lhs => rw [hl]
          rw [← ht]
        refine ⟨l.takeWhile isDigit09, t.takeWhile pySpaceChar, c, rest, hdec, ?_, ?_, ?_, ?_, ?_⟩
        · intro hcon
          rw [hcon] at h1
          simp at h1
        · exact fun d hd => List.mem_takeWhile_imp hd
        · intro hcon
          rw [hcon] at h3
          simp at h3
        · exact fun d hd => List.mem_takeWhile_imp hd
        · simpa using h4
  · rintro ⟨ds, ws, c, rest, rfl, hds, hdall, hws, hwall, hc⟩
    obtain ⟨ht1, hd1⟩ := takeWhile_append_run ds '.' (ws ++ c :: rest) hdall (by decide)
    obtain ⟨ht2, hd2⟩ := takeWhile_append_run ws c rest hwall (upper_not_space hc)
    rw [headerPat3, ht1, hd1]
    simp only []
    rw [ht2, hd2]
    simp [hds, hws, hc]

lemma headerPat4_iff (l : List Char) : headerPat4 l = true ↔ SpecRoman l := by
  constructor
  · intro h
    rw [headerPat4, Bool.and_eq_true] at h
    obtain ⟨h1, h2⟩ := h
    cases hdw : l.dropWhile isRomanChar with
    | nil => rw [hdw] at h2; simp at h2
    | cons c0 t =>
      rw [hdw] at h2
      simp only [Bool.and_eq_true, decide_eq_true_eq] at h2
      obtain ⟨hc0, h3⟩ := h2
      subst hc0
      cases hct : t with
      | nil => rw [hct] at h3; simp at h3
      | cons w rest =>
        rw [hct] at h3
        have hl : l = l.takeWhile isRomanChar ++ ('.' :: (w :: rest)) := by
          have := (List.takeWhile_append_dropWhile isRomanChar l).symm
          rw [hdw, hct] at this
          exact this
        refine ⟨l.takeWhile isRomanChar, w, rest, hl, ?_, ?_, h3⟩
        · intro hcon
          rw [hcon] at h1
          simp at h1
        · exact fun d hd => List.mem_takeWhile_imp hd
  · rintro ⟨rs, w, rest, rfl, hrs, hrall, hw⟩
    have hwdot : isRomanChar '.' = false := by decide
    obtain ⟨ht1, hd1⟩ := takeWhile_append_run rs '.' (w :: rest) hrall hwdot
    rw [headerPat4, ht1, hd1]
    simp [hrs, hw]

lemma headerPat5_iff (l : List Char) : headerPat5 l = true ↔ SpecKeyword l := by
  rw [headerPat5, List.any_eq_true]
  constructor
  · rintro ⟨kw, hkw, hp⟩
    exact ⟨kw, hkw, List.isPrefixOf_iff_prefix.mp hp⟩
  · rintro ⟨kw, hkw, hp⟩
    exact ⟨kw, hkw, List.isPrefixOf_iff_prefix.mpr hp⟩

lemma isHeaderLine_iff (s : String) : isHeaderLine s = true ↔ SpecHeader 6 s.data := by
  rw [isHeaderLine, SpecHeader]
  simp only [Bool.or_eq_true]
  rw [headerPat1_iff, headerPat2_iff, headerPat3_iff, headerPat4_iff, headerPat5_iff]
  tauto

/-- Claim C7 (amended: the all-caps pattern requires at least 6 characters —
an uppercase letter followed by at least five more uppercase/whitespace/
hyphen characters — not 5 as stated): a stripped line takes the header
branch of `_detect_sections` exactly when it matches one of the five
structural patterns and its length is under the 100-character cutoff; and
for a page containing the two all-caps headers "COVERAGE LIMITS" and
"EXCLUSIONS", each followed by a sentence, `_detect_sections` yields
exactly two sections with those titles, in document order. -/
theorem detect_sections_spec :
    (∀ ls : String,
        takesHeaderBranch ls = true ↔ (SpecHeader 6 ls.data ∧ ls.length < 100)) ∧
    (detect_sections
        [(1, "COVERAGE LIMITS\nThis policy covers fire and theft.\nEXCLUSIONS\nFlood damage is not covered.")]).map
        DocSection.title = ["COVERAGE LIMITS", "EXCLUSIONS"] := by
  constructor
  · intro ls
    rw [takesHeaderBranch, Bool.and_eq_true, decide_eq_true_eq, isHeaderLine_iff]
  · decide

/-- Counterexample to C7 as stated: "LIMIT" is an all-uppercase line of
exactly 5 characters, under the 100-character cutoff, and so should be a
section header by the wording of the claim — but the compiled pattern
`^[A-Z][A-Z\s\-]{5,}$` demands at least 6 characters and no other pattern
applies, so `_detect_sections` does not classify it as a header. -/
theorem detect_sections_claim_cex :
    ClaimAllCaps 5 "LIMIT".data ∧ "LIMIT".length < 100 ∧
      takesHeaderBranch "LIMIT" = false :=
  ⟨⟨'L', "IMIT".data, by decide, by decide, by decide, by decide⟩, by decide, by decide⟩

/- ──────────── app/services/document_processor.py : process_pdf ────────────
PDF text extraction (`_extract_pages`, a PyMuPDF effect) is external: pages
enter the model as `(page_number, text)` pairs.  The tiktoken encoder is the
abstract `tok`, its decoder `dec`. -/

/-- The section loop of `_chunk_by_sections`, with the running chunk index. -/
def chunkBySectionsGo (tok : String → List Nat) (dec : List Nat → String) (cs ov : Nat) :
    Nat → List DocSection → List SChunk
  | _, [] => []
  | idx, sec :: rest =>
    if (tok (pyStrip sec.text)).length ≤ cs then
      ⟨idx, pyStrip sec.text, some sec.pageNumber, some sec.title,
          (tok (pyStrip sec.text)).length⟩ ::
        chunkBySectionsGo tok dec cs ov (idx + 1) rest
    else
      split_text cs ov dec (tok (pyStrip sec.text)) (some sec.pageNumber) (some sec.title) idx
        ++ chunkBySectionsGo tok dec cs ov
            (idx + (split_text cs ov dec (tok (pyStrip sec.text)) (some sec.pageNumber)
              (some sec.title) idx).length) rest

/-- Model of `DocumentProcessor._chunk_by_sections`. -/
def chunk_by_sections (tok : String → List Nat) (dec : List Nat → String) (cs ov : Nat)
    (sections : List DocSection) : List SChunk :=
  chunkBySectionsGo tok dec cs ov 0 sections

/-- The page loop of `_chunk_sliding_window` (empty pages are skipped). -/
def chunkSlidingGo (tok : String → List Nat) (dec : List Nat → String) (cs ov : Nat) :
    Nat → List (Nat × String) → List SChunk
  | _, [] => []
  | idx, (pnum, ptext) :: rest =>
    if pyStrip ptext = "" then chunkSlidingGo tok dec cs ov idx rest
    else
      split_text cs ov dec (tok (pyStrip ptext)) (some pnum) none idx
        ++ chunkSlidingGo tok dec cs ov
            (idx + (split_text cs ov dec (tok (pyStrip ptext)) (some pnum) none idx).length)
            rest

/-- Model of `DocumentProcessor._chunk_sliding_window`. -/
def chunk_sliding_window (tok : String → List Nat) (dec : List Nat → String) (cs ov : Nat)
    (pages : List (Nat × String)) : List SChunk :=
  chunkSlidingGo tok dec cs ov 0 pages

/-- Result of `process_pdf` (`full_text` and `page_count` metadata omitted;
the claims concern the chunks and the chunking method). -/
structure ProcessedDoc where
  chunks : List SChunk
  chunkingMethod : String
deriving DecidableEq

/-- Model of `DocumentProcessor.process_pdf`, from extracted pages onward:
`if sections and len(sections) > 1:` chooses section-based chunking,
otherwise the sliding-window fallback. -/
def process_pdf (tok : String → List Nat) (dec : List Nat → String) (cs ov : Nat)
    (pages : List (Nat × String)) : ProcessedDoc :=
  let sections := detect_sections pages
  if !sections.isEmpty && decide (sections.length > 1) then
    ⟨chunk_by_sections tok dec cs ov sections, "section"⟩
  else
    ⟨chunk_sliding_window tok dec cs ov pages, "sliding_window"⟩

lemma twoSections_iff (s : List DocSection) :
    (!s.isEmpty && decide (s.length > 1)) = true ↔ 2 ≤ s.length := by
  cases s with
  | nil => simp
  | cons a t =>
    simp only [List.isEmpty_cons, Bool.not_false, Bool.true_and, decide_eq_true_eq,
      List.length_cons]
    omega

/-- Claim C8: `process_pdf` produces its chunks by section-based chunking
exactly when section detection yields two or more sections, and otherwise
by whole-document sliding-window chunking over the pages. -/
theorem process_pdf_method (tok : String → List Nat) (dec : List Nat → String)
    (cs ov : Nat) (pages : List (Nat × String)) :
    process_pdf tok dec cs ov pages =
      if 2 ≤ (detect_sections pages).length then
        ⟨chunk_by_sections tok dec cs ov (detect_sections pages), "section"⟩
      else ⟨chunk_sliding_window tok dec cs ov pages, "sliding_window"⟩ := by
  simp only [process_pdf]
  by_cases h : 2 ≤ (detect_sections pages).length
  · rw [if_pos ((twoSections_iff _).mpr h), if_pos h]
  · rw [if_neg ?hc, if_neg h]
    case hc =>
      intro hc
      exact h ((twoSections_iff _).mp hc)

/- ──────────────── app/services/retrieval_service.py ────────────────
The Pinecone index is external state; it is modelled as a list of stored
records (namespace, id, vector, metadata), with `index.upsert` overwriting
by id within a namespace and `index.query` — per the provider contract —
searching only the given namespace, applying the metadata filter (a `$eq`
filter does not match records lacking the field) and returning the `top_k`
matches ranked by similarity to the query vector.  Vector similarity itself
is provider-defined and enters as the abstract `sim`. -/

/-- Vector metadata as built by `upsert_chunks`. -/
structure Meta where
  tenantId : String
  documentType : String
  chunkText : String
  pageNumber : Nat
  sectionTitle : String
  chunkIndex : Nat
  policyNumber : Option String
  communicationType : Option String
deriving DecidableEq

/-- A chunk dict as passed to `upsert_chunks`. -/
structure InChunk where
  chunkId : String
  text : String
  pageNumber : Option Nat
  sectionTitle : Option String
  chunkIndex : Nat
  communicationType : Option String
  embedding : List ℚ
deriving DecidableEq

/-- One stored vector record. -/
structure VecRec where
  ns : String
  id : String
  values : List ℚ
  meta : Meta
deriving DecidableEq

/-- The modelled Pinecone index state. -/
abbrev IndexState := List VecRec

/-- Model of `index.upsert` for one vector: overwrite by id within the namespace. -/
def putRecord (st : IndexState) (r : VecRec) : IndexState :=
  st.filter (fun x => !(x.ns == r.ns && x.id == r.id)) ++ [r]

/-- The metadata record `upsert_chunks` builds for one chunk: the text
truncated to 1000 characters, `page_number` defaulted to 0 and
`section_title` to "" by Python `or`, `policy_number` present only when the
argument is truthy, `communication_type` present only when the chunk
carries a truthy one. -/
def upsertMeta (tenant docType : String) (policy : Option String) (c : InChunk) : Meta :=
  { tenantId := tenant
    documentType := docType
    chunkText := ⟨c.text.data.take 1000⟩
    pageNumber := c.pageNumber.getD 0
    sectionTitle := c.sectionTitle.getD ""
    chunkIndex := c.chunkIndex
    policyNumber :=
      match policy with
      | some p => if p ≠ "" then some p else none
      | none => none
    communicationType :=
      match c.communicationType with
      | some ct => if ct ≠ "" then some ct else none
      | none => none }

/-- Model of `RetrievalService.upsert_chunks`: every vector is written under the
namespace equal to `tenant_id`.  (Batching in groups of 100 does not change
the final state and is elided.) -/
def upsert_chunks (st : IndexState) (chunks : List InChunk)
    (tenant docType : String) (policy : Option String) : IndexState :=
  chunks.foldl
    (fun s c =>
      putRecord s ⟨tenant, c.chunkId, c.embedding, upsertMeta tenant docType policy c⟩)
    st

/-- The dataclass `RetrievedChunk` from `retrieval_service.py`. -/
structure RetrievedChunk where
  chunkId : String
  text : String
  pageNumber : Option Nat
  sectionTitle : Option String
  policyNumber : Option String
  documentType : String
  similarityScore : ℚ
  metadata : Meta
deriving DecidableEq

/-- Model of `_parse_results` on one Pinecone match `(id, score, metadata)`.  States
written by `upsert_chunks` always carry complete metadata, so each
`meta.get(...)` returns the stored field. -/
def parseMatch (m : String × ℚ × Meta) : RetrievedChunk :=
  { chunkId := m.1
    text := m.2.2.chunkText
    pageNumber := some m.2.2.pageNumber
    sectionTitle := some m.2.2.sectionTitle
    policyNumber := m.2.2.policyNumber
    documentType := m.2.2.documentType
    similarityScore := m.2.1
    metadata := m.2.2 }

/-- Model of `index.query(vector, top_k, namespace, filter)` per the provider
contract described above. -/
def pineconeQuery (sim : List ℚ → List ℚ → ℚ) (st : IndexState) (qv : List ℚ)
    (topK : Nat) (ns : String) (filt : Meta → Bool) : List (String × ℚ × Meta) :=
  (sortByDesc (fun m => m.2.1)
    ((st.filter (fun r => r.ns == ns && filt r.meta)).map
      (fun r => (r.id, sim qv r.values, r.meta)))).take topK

/-- Model of `RetrievalService.search_policy`: the tenant namespace with equality
filters on `document_type == "policy"` and the requested `policy_number`. -/
def search_policy (sim : List ℚ → List ℚ → ℚ) (st : IndexState) (qe : List ℚ)
    (tenant policy : String) (topK : Nat) : List RetrievedChunk :=
  (pineconeQuery sim st qe topK tenant
    (fun m => m.documentType == "policy" && m.policyNumber == some policy)).map parseMatch

/-- Index states reachable from the empty index through `upsert_chunks`. -/
inductive Reachable : IndexState → Prop
  | empty : Reachable []
  | upsert (st : IndexState) (chunks : List InChunk) (tenant docType : String)
      (policy : Option String) :
      Reachable st → Reachable (upsert_chunks st chunks tenant docType policy)

lemma putRecord_inv {st : IndexState} {r : VecRec}
    (hst : ∀ x ∈ st, x.ns = x.meta.tenantId) (hr : r.ns = r.meta.tenantId) :
    ∀ x ∈ putRecord st r, x.ns = x.meta.tenantId := by
  intro x hx
  rw [putRecord] at hx
  rcases List.mem_append.mp hx with h | h
  · exact hst x (List.mem_of_mem_filter h)
  · rw [List.mem_singleton] at h
    subst h
    exact hr

lemma upsert_chunks_inv :
    ∀ (chunks : List InChunk) (st : IndexState) (tenant docType : String)
      (policy : Option String),
      (∀ x ∈ st, x.ns = x.meta.tenantId) →
      ∀ x ∈ upsert_chunks st chunks tenant docType policy, x.ns = x.meta.tenantId := by
  intro chunks
  induction chunks with
  | nil =>
    intro st tenant docType policy h
    simpa [upsert_chunks] using h
  | cons c rest ih =>
    intro st tenant docType policy h
    rw [upsert_chunks, List.foldl_cons]
    exact ih _ tenant docType policy (putRecord_inv h rfl)

lemma reachable_inv {st : IndexState} (h : Reachable st) :
    ∀ x ∈ st, x.ns = x.meta.tenantId := by
  induction h with
  | empty => intro x hx; cases hx
  | upsert st chunks tenant docType policy _ ih =>
    exact upsert_chunks_inv chunks st tenant docType policy ih

/-- Claim C1: every record `upsert_chunks` ever writes lives in the
namespace equal to its metadata `tenant_id`; consequently, on any index
state reachable through `upsert_chunks`, a `search_policy` call scoped to
tenant `A` and policy `P` only returns chunks whose metadata tenant is `A`
and whose policy number is `P` — even when another tenant holds chunks
with the same policy number. -/
theorem search_policy_isolation (sim : List ℚ → List ℚ → ℚ) (st : IndexState)
    (hst : Reachable st) (qe : List ℚ) (tenant policy : String) (topK : Nat) :
    (∀ x ∈ st, x.ns = x.meta.tenantId) ∧
    ∀ c ∈ search_policy sim st qe tenant policy topK,
      c.metadata.tenantId = tenant ∧ c.policyNumber = some policy := by
  refine ⟨reachable_inv hst, ?_⟩
  intro c hc
  rw [search_policy] at hc
  obtain ⟨m, hm, rfl⟩ := List.mem_map.mp hc
  rw [pineconeQuery] at hm
  have hm2 := mem_sortByDesc _ _ _ (List.mem_of_mem_take hm)
  obtain ⟨r, hr, rfl⟩ := List.mem_map.mp hm2
  obtain ⟨hrmem, hcond⟩ := List.mem_filter.mp hr
  rw [Bool.and_eq_true] at hcond
  obtain ⟨hns, hfilt⟩ := hcond
  rw [Bool.and_eq_true] at hfilt
  obtain ⟨hdt, hpn⟩ := hfilt
  have hns' : r.ns = tenant := by simpa using hns
  have hpn' : r.meta.policyNumber = some policy := by simpa using hpn
  constructor
  · show r.meta.tenantId = tenant
    rw [← reachable_inv hst r hrmem]
    exact hns'
  · show r.meta.policyNumber = some policy
    exact hpn'

/-- Two tenants holding the same policy number "P": the scenario of C1. -/
def demoState : IndexState :=
  upsert_chunks
    (upsert_chunks [] [⟨"idB", "textB", none, none, 0, none, [1]⟩] "tenantB" "policy"
      (some "P"))
    [⟨"idA", "textA", some 3, some "Coverage", 0, none, [1]⟩] "tenantA" "policy" (some "P")

/-- Witness for C1 on the two-tenant state. -/
theorem search_policy_isolation_witness :
    (∀ x ∈ demoState, x.ns = x.meta.tenantId) ∧
    ∀ c ∈ search_policy (fun _ _ => (1 : ℚ)) demoState [1] "tenantA" "P" 10,
      c.metadata.tenantId = "tenantA" ∧ c.policyNumber = some "P" :=
  search_policy_isolation (fun _ _ => (1 : ℚ)) demoState
    (Reachable.upsert _ _ _ _ _ (Reachable.upsert _ _ _ _ _ Reachable.empty))
    [1] "tenantA" "P" 10

/- ──────────────── app/services/query_orchestrator.py ────────────────
The orchestrator is modelled from the retrieval result onward: embedding
and retrieval happen upstream of the parts the claims concern (their
failures propagate out of the function), `query_id` and the measured
latency enter as parameters, and the generation provider call — already
wrapped in `retry_async`, Anthropic and OpenAI alike — is abstracted by its
final outcome `g : Except Unit String`. -/

/-- Model of `_calculate_confidence` over the score list of the selected chunks. -/
def calculate_confidence (scores : List ℚ) : ℚ :=
  if scores = [] then 0
  else pyRound4 (scores.headD 0 * (6/10) + scores.sum / (scores.length : ℚ) * (4/10))

/-- Model of `chunk.section_title or "General"` (also treats "" as absent). -/
def orGeneral (s : Option String) : String :=
  match s with
  | some t => if t ≠ "" then t else "General"
  | none => "General"

/-- Model of the page label, `f"Page X" if chunk.page_number else "Page unknown"` — a truthiness
test, so page 0 also renders as unknown. -/
def page_tag (p : Option Nat) : String :=
  match p with
  | some n => if n ≠ 0 then "Page " ++ toString n else "Page unknown"
  | none => "Page unknown"

/-- One excerpt block of `_build_context` (`i` is the 1-based position). -/
def excerpt_block (i : Nat) (c : RetrievedChunk) : String :=
  "[Excerpt " ++ toString i ++ "] [" ++ page_tag c.pageNumber ++ ", Section: "
    ++ orGeneral c.sectionTitle ++ "]\n" ++ c.text ++ "\n"

/-- Python `sep.join(parts)`. -/
def joinSep (sep : String) : List String → String
  | [] => ""
  | [s] => s
  | s :: t => s ++ sep ++ joinSep sep t

/-- The enumerated excerpt blocks of `_build_context`. -/
def buildContextGo (i : Nat) : List RetrievedChunk → List String
  | [] => []
  | c :: rest => excerpt_block i c :: buildContextGo (i + 1) rest

/-- Model of `QueryOrchestrator._build_context`. -/
def build_context (chunks : List RetrievedChunk) : String :=
  joinSep "\n---\n" (buildContextGo 1 chunks)

/-- One citation dict of `_extract_citations`. -/
structure Citation where
  page : Option Nat
  sectionName : String
  text : String
  chunkId : String
  similarityScore : ℚ
deriving DecidableEq

/-- Model of `QueryOrchestrator._extract_citations`: 300-character text preview,
section defaulted to "General", score rounded to 4 places. -/
def extract_citations (chunks : List RetrievedChunk) : List Citation :=
  chunks.map fun c =>
    ⟨c.pageNumber, orGeneral c.sectionTitle, ⟨c.text.data.take 300⟩, c.chunkId,
      pyRound4 c.similarityScore⟩

/-- The fixed degraded answer produced by the exception handler of `_generate_answer`. -/
def generationErrorAnswer : String :=
  "I encountered an error while processing your question. Please try again."

/-- Model of `QueryOrchestrator._generate_answer`: any provider exception is caught
and replaced by the fixed degraded answer. -/
def generate_answer (g : Except Unit String) : String :=
  match g with
  | .ok s => s
  | .error _ => generationErrorAnswer

/-- The response dict assembled by the orchestrator (`retrieval_scores` is
present on the policy path only, hence an `Option`). -/
structure QueryResult where
  answer : String
  citations : List Citation
  confidence : ℚ
  queryId : String
  latencyMs : Nat
  retrievalScores : Option (List (String × ℚ))
deriving DecidableEq

/-- Model of `QueryOrchestrator._no_results_response`. -/
def no_results_response (queryId : String) (latencyMs : Nat) : QueryResult :=
  { answer := "I cannot find information related to your question in the available documents."
    citations := []
    confidence := 0
    queryId := queryId
    latencyMs := latencyMs
    retrievalScores := none }

/-- The rerank step: `sorted(..., reverse=True)[:top_k_rerank]`. -/
def top_rerank (topK : Nat) (retrieved : List RetrievedChunk) : List RetrievedChunk :=
  (sortByDesc (fun c => c.similarityScore) retrieved).take topK

/-- Model of `QueryOrchestrator.query_policy` from the retrieval result onward. -/
def query_policy (topK : Nat) (queryId : String) (latencyMs : Nat)
    (retrieved : List RetrievedChunk) (g : Except Unit String) : QueryResult :=
  if retrieved = [] then no_results_response queryId latencyMs
  else
    { answer := generate_answer g
      citations := extract_citations (top_rerank topK retrieved)
      confidence := calculate_confidence ((top_rerank topK retrieved).map
        (fun c => c.similarityScore))
      queryId := queryId
      latencyMs := latencyMs
      retrievalScores := some ((top_rerank topK retrieved).map
        fun c => (c.chunkId, pyRound4 c.similarityScore)) }

/-- Model of `QueryOrchestrator.query_communications` from the retrieval result
onward (its response carries no `retrieval_scores` key). -/
def query_communications (topK : Nat) (queryId : String) (latencyMs : Nat)
    (retrieved : List RetrievedChunk) (g : Except Unit String) : QueryResult :=
  if retrieved = [] then no_results_response queryId latencyMs
  else
    { answer := generate_answer g
      citations := extract_citations (top_rerank topK retrieved)
      confidence := calculate_confidence ((top_rerank topK retrieved).map
        (fun c => c.similarityScore))
      queryId := queryId
      latencyMs := latencyMs
      retrievalScores := none }

/-- Claim C2 (amended: the fixed no-match answer is the literal "I cannot
find information related to your question in the available documents.",
not "cannot find this information"): on an empty retrieval result both
orchestrator entry points return the fixed no-results response — that
fixed answer, empty citations, confidence exactly 0 — and the result does
not depend on the generation outcome, which is never consulted on this
path. -/
theorem no_match_short_circuit (topK : Nat) (queryId : String) (latencyMs : Nat)
    (g g' : Except Unit String) :
    query_policy topK queryId latencyMs [] g = no_results_response queryId latencyMs ∧
    query_communications topK queryId latencyMs [] g
      = no_results_response queryId latencyMs ∧
    (no_results_response queryId latencyMs).answer
      = "I cannot find information related to your question in the available documents." ∧
    (no_results_response queryId latencyMs).citations = [] ∧
    (no_results_response queryId latencyMs).confidence = 0 ∧
    query_policy topK queryId latencyMs [] g = query_policy topK queryId latencyMs [] g' := by
  refine ⟨?_, ?_, rfl, rfl, rfl, ?_⟩ <;> simp [query_policy, query_communications]

/-- Counterexample to C2 as stated: the fixed no-match answer is not the
literal "cannot find this information" — that phrase is not even a
substring of the actual fixed answer. -/
theorem no_match_answer_cex :
    (query_policy 5 "q" 7 [] (.ok "whatever")).answer ≠ "cannot find this information" ∧
    containsSub "cannot find this information".data
      (query_policy 5 "q" 7 [] (.ok "whatever")).answer.data = false :=
  ⟨by decide, by decide⟩

lemma pairsHold_ge_head (s : ℚ) (t : List ℚ)
    (h : pairsHold (fun a b => b ≤ a) (s :: t) = true) : ∀ x ∈ t, x ≤ s := by
  induction t generalizing s with
  | nil => intro x hx; cases hx
  | cons b t2 ih =>
    rw [pairsHold, Bool.and_eq_true] at h
    obtain ⟨h1, h2⟩ := h
    have hbs : b ≤ s := by simpa using h1
    intro x hx
    rcases List.mem_cons.mp hx with rfl | hx'
    · exact hbs
    · exact le_trans (ih b h2 x hx') hbs

/-- Claim C6: for a nonempty score list sorted descending, the computed
confidence equals `round(0.6 * top + 0.4 * mean, 4)` where `top` is the
maximal (first) score; for scores [0.9, 0.7, 0.5] it equals exactly 0.82;
for an empty chunk list it equals 0.0. -/
theorem calculate_confidence_spec (scores : List ℚ) (hne : scores ≠ [])
    (hsorted : pairsHold (fun a b => b ≤ a) scores = true) :
    (∃ top ∈ scores, (∀ x ∈ scores, x ≤ top) ∧
      calculate_confidence scores
        = pyRound4 ((6/10) * top + (4/10) * (scores.sum / (scores.length : ℚ)))) ∧
    calculate_confidence [9/10, 7/10, 5/10] = 82/100 ∧
    calculate_confidence [] = 0 := by
  refine ⟨?_, ?_, rfl⟩
  · cases scores with
    | nil => exact absurd rfl hne
    | cons s t =>
      refine ⟨s, List.mem_cons_self _ _, ?_, ?_⟩
      · intro x hx
        rcases List.mem_cons.mp hx with rfl | hx'
        · exact le_rfl
        · exact pairsHold_ge_head s t hsorted x hx'
      · rw [calculate_confidence, if_neg (by simp)]
        congr 1
        simp only [List.headD_cons]
        ring
  · rw [calculate_confidence, if_neg (by simp), pyRound4]
    norm_num

/-- Witness for C6 at the scores [0.9, 0.7, 0.5]. -/
theorem calculate_confidence_spec_witness :
    (∃ top ∈ [(9:ℚ)/10, 7/10, 5/10], (∀ x ∈ [(9:ℚ)/10, 7/10, 5/10], x ≤ top) ∧
      calculate_confidence [(9:ℚ)/10, 7/10, 5/10]
        = pyRound4 ((6/10) * top
            + (4/10) * (([(9:ℚ)/10, 7/10, 5/10].sum)
                / (([(9:ℚ)/10, 7/10, 5/10].length : ℚ))))) ∧
    calculate_confidence [9/10, 7/10, 5/10] = 82/100 ∧
    calculate_confidence [] = 0 :=
  calculate_confidence_spec [9/10, 7/10, 5/10] (by simp)
    (by simp only [pairsHold, Bool.and_eq_true, decide_eq_true_eq]; norm_num)

/-- Claim C9: when retrieval produced candidates but the generation call
fails after its retries, the orchestrator does not propagate the failure:
it returns the fixed degraded answer while citations, confidence, query id,
latency and retrieval scores are assembled exactly as for a successful
generation, on the policy and communications paths alike. -/
theorem generation_failure_downgrade (topK : Nat) (queryId : String) (latencyMs : Nat)
    (retrieved : List RetrievedChunk) (s : String) (hne : retrieved ≠ []) :
    (query_policy topK queryId latencyMs retrieved (.error ())).answer
        = generationErrorAnswer ∧
    query_policy topK queryId latencyMs retrieved (.error ())
        = { query_policy topK queryId latencyMs retrieved (.ok s) with
            answer := generationErrorAnswer } ∧
    query_communications topK queryId latencyMs retrieved (.error ())
        = { query_communications topK queryId latencyMs retrieved (.ok s) with
            answer := generationErrorAnswer } := by
  refine ⟨?_, ?_, ?_⟩ <;>
    simp [query_policy, query_communications, if_neg hne, generate_answer]

/-- A concrete retrieved chunk for the C9 witness. -/
def demoRC : RetrievedChunk :=
  ⟨"id1", "some text", some 1, some "S", some "P", "policy", 1,
    ⟨"tenantA", "policy", "some text", 1, "S", 0, some "P", none⟩⟩

/-- Witness for C9 on a one-chunk retrieval result. -/
theorem generation_failure_downgrade_witness :
    (query_policy 5 "q" 7 [demoRC] (.error ())).answer = generationErrorAnswer ∧
    query_policy 5 "q" 7 [demoRC] (.error ())
        = { query_policy 5 "q" 7 [demoRC] (.ok "fine") with
            answer := generationErrorAnswer } ∧
    query_communications 5 "q" 7 [demoRC] (.error ())
        = { query_communications 5 "q" 7 [demoRC] (.ok "fine") with
            answer := generationErrorAnswer } :=
  generation_failure_downgrade 5 "q" 7 [demoRC] "fine" (by simp)

/-- Claim C10: `_build_context` (through `page_tag` and `orGeneral`, the
renderers it interpolates into every excerpt header) shows "Page unknown"
for a chunk whose page number is `None` or 0 — a truthiness test, not a
`None` check — and section "General" for a `None` or empty section title;
and since `upsert_chunks` stores an absent page number as 0, a chunk
indexed without a page number parses back from retrieval with page 0 and
is rendered "Page unknown". -/
theorem page_section_defaults (c : RetrievedChunk) (ch : InChunk)
    (tenant docType : String) (policy : Option String) (vid : String) (score : ℚ)
    (hpage : c.pageNumber = none ∨ c.pageNumber = some 0)
    (hsec : c.sectionTitle = none ∨ c.sectionTitle = some "")
    (hch : ch.pageNumber = none) :
    page_tag c.pageNumber = "Page unknown" ∧
    orGeneral c.sectionTitle = "General" ∧
    (upsertMeta tenant docType policy ch).pageNumber = 0 ∧
    page_tag (parseMatch (vid, score, upsertMeta tenant docType policy ch)).pageNumber
      = "Page unknown" := by
  refine ⟨?_, ?_, ?_, ?_⟩
  · rcases hpage with h | h <;> rw [h] <;> simp [page_tag]
  · rcases hsec with h | h <;> rw [h] <;> simp [orGeneral]
  · simp [upsertMeta, hch]
  · simp [parseMatch, upsertMeta, hch, page_tag]

/-- Witness for C10: a retrieved chunk with page 0 and empty section title,
and an input chunk with no page number. -/
theorem page_section_defaults_witness :
    page_tag (some 0) = "Page unknown" ∧
    orGeneral (some "") = "General" ∧
    (upsertMeta "tenantA" "policy" (some "P")
        ⟨"idB", "textB", none, none, 0, none, [1]⟩).pageNumber = 0 ∧
    page_tag (parseMatch ("idB", 1,
        upsertMeta "tenantA" "policy" (some "P")
          ⟨"idB", "textB", none, none, 0, none, [1]⟩)).pageNumber = "Page unknown" := by
  have h := page_section_defaults
    ⟨"idB", "textB", some 0, some "", some "P", "policy", 1,
      ⟨"tenantA", "policy", "textB", 0, "", 0, some "P", none⟩⟩
    ⟨"idB", "textB", none, none, 0, none, [1]⟩
    "tenantA" "policy" (some "P") "idB" 1
    (Or.inr rfl) (Or.inr rfl) rfl
  exact ⟨h.1, h.2.1, h.2.2.1, h.2.2.2⟩
